import Mathlib

/-!
Verification of the core of `vscode-nls-dev` (`src/lib.ts`): the line-oriented
text model with patch application (`TextModel`), the localize-call analysis
loop (`analyze`), and the message-bundle helpers (`resolveMessageBundle`,
`asTranslatedMessages`, `bundle2keyValuePair`).

The TypeScript front end (parsing, reference resolution, position conversion)
is an external library; the analysis loop is modelled over the recognized
call sites it produces, with `ts.getLineAndCharacterOfPosition` abstracted as
a function from offsets to positions.

JavaScript strings are modelled as Lean strings (character lists);
`String.prototype.substring` clamps out-of-range indices, modelled with
`List.take`/`List.drop`.  A JavaScript `TypeError` crash (property access on
`undefined`/`null`) is modelled as the distinguished error `ApplyError.typeError`.
-/

/-- A zero-based (line, character) position, as produced by
`ts.getLineAndCharacterOfPosition`. -/
structure Pos where
  line : Nat
  character : Nat
deriving DecidableEq, Repr

/-- A span between two positions; `stop` models the field named `end` in the
TypeScript source. -/
structure Span where
  start : Pos
  stop : Pos
deriving DecidableEq, Repr

/-- A patch: a span plus replacement text (`interface Patch` in `lib.ts`). -/
structure Patch where
  span : Span
  content : String
deriving DecidableEq, Repr

/-- One line of a `TextModel`: `content` is `none` once consumed by a
multi-line edit (`null` in the source); `ending` is the original line
terminator (source-map mappings are not modelled). -/
structure Line where
  content : Option String
  ending : String
deriving DecidableEq, Repr

/-- The `TextModel` class: an ordered list of lines. -/
structure TextModel where
  lines : List Line
deriving DecidableEq, Repr

/-- Splitting of the constructor argument on `\r\n`, `\r`, `\n` (the regex
loop in the `TextModel` constructor); `cur` holds the current line's
characters in reverse.  The final segment always becomes a line with empty
`ending` (the trailing `this.lines.push` guarded by `contents.length > 0`). -/
def scanLines : List Char → List Char → List Line
  | [], cur => [{ content := some ⟨cur.reverse⟩, ending := "" }]
  | '\r' :: '\n' :: rest, cur =>
    { content := some ⟨cur.reverse⟩, ending := "\r\n" } :: scanLines rest []
  | '\r' :: rest, cur =>
    { content := some ⟨cur.reverse⟩, ending := "\r" } :: scanLines rest []
  | '\n' :: rest, cur =>
    { content := some ⟨cur.reverse⟩, ending := "\n" } :: scanLines rest []
  | c :: rest, cur => scanLines rest (c :: cur)

/-- The `TextModel` constructor: an empty input yields no lines at all (the
regex loop never fires and the guarded trailing push is skipped). -/
def TextModel.make (contents : String) : TextModel :=
  ⟨if contents.data.isEmpty then [] else scanLines contents.data []⟩

/-- Serialization of one line, `line.content + line.ending`, skipped when `content` is falsy — which in
JavaScript means both `null` and the empty string (`if (line.content)` in
`toString`). -/
def lineOut (l : Line) : String :=
  match l.content with
  | none => ""
  | some s => if s = "" then "" else s ++ l.ending

/-- The method `TextModel.prototype.toString`: concatenation of every line with truthy
content. -/
def TextModel.toString (m : TextModel) : String :=
  m.lines.foldl (fun acc l => acc ++ lineOut l) ""

/-- The comparator used to sort patches: ascending by start line, then by
start character. -/
def startLe (a b : Patch) : Prop :=
  a.span.start.line < b.span.start.line ∨
    (a.span.start.line = b.span.start.line ∧
      a.span.start.character ≤ b.span.start.character)

instance : DecidableRel startLe := fun a b => by
  unfold startLe; infer_instance

instance : IsTotal Patch startLe :=
  ⟨fun a b => by unfold startLe; omega⟩

instance : IsTrans Patch startLe :=
  ⟨fun a b c => by unfold startLe; omega⟩

/-- The sort performed by `apply` (`patches.sort(...)`): a stable sort by the
`startLe` comparator. -/
def sortPatches (ps : List Patch) : List Patch :=
  ps.insertionSort startLe

/-- The overlap test between a span end `e` and a span start `s`:
`e.line > s.line || (e.line === s.line && e.character >= s.character)`. -/
def overlapCond (e s : Pos) : Bool :=
  decide (e.line > s.line) || (decide (e.line = s.line) && decide (e.character ≥ s.character))

/-- The overlap scan in `apply`: `previousSpan` is initialized to
`patches[0].span` and never advanced, so the loop compares the FIRST sorted
patch against every later patch. -/
def hasOverlap : List Patch → Bool
  | [] => false
  | p0 :: rest => rest.any fun p => overlapCond p0.span.stop p.span.start

/-- The specification-side overlap notion: some CONSECUTIVE pair of the
(sorted) list has the earlier patch's end at or after the later one's start.
`noConsecOverlap l = true` means the list is non-overlapping in this sense. -/
def noConsecOverlap : List Patch → Bool
  | [] => true
  | [_] => true
  | p :: q :: rest => !overlapCond p.span.stop q.span.start && noConsecOverlap (q :: rest)

/-- Errors that `apply` can raise: the two thrown `Error`s, plus
`typeError` for a JavaScript crash from accessing `undefined`/`null`. -/
inductive ApplyError
  | overlap
  | outOfBounds
  | typeError
deriving DecidableEq, Repr

/-- JavaScript `s.substring(0, i)` (clamping). -/
def jsSubstringTo (s : String) (i : Nat) : String := ⟨s.data.take i⟩

/-- JavaScript `s.substring(i)` (clamping). -/
def jsSubstringFrom (s : String) (i : Nat) : String := ⟨s.data.drop i⟩

/-- The nulling loop `for (let i = start + 1; i <= end; i++) lines[i].content = null`,
here for all indices `i` with `a ≤ i ≤ b`. -/
def nullOutRange (lines : List Line) (a b : Nat) : List Line :=
  lines.enum.map fun il => if a ≤ il.1 ∧ il.1 ≤ b then { il.2 with content := none } else il.2

/-- The textual manipulation of one patch inside `apply`'s `forEach`:
splice the start line, null out the lines strictly after it up to the end
line.  `none` models a JavaScript `TypeError` (line index out of range, or
`content` already `null`). -/
def applyOne (lines : List Line) (p : Patch) : Option (List Line) :=
  match lines[p.span.start.line]?, lines[p.span.stop.line]? with
  | some startLine, some endLine =>
    match startLine.content, endLine.content with
    | some sc, some ec =>
      let newContent :=
        jsSubstringTo sc p.span.start.character ++ p.content ++
          jsSubstringFrom ec p.span.stop.character
      let lines2 := lines.set p.span.start.line { startLine with content := some newContent }
      some (nullOutRange lines2 (p.span.start.line + 1) p.span.stop.line)
    | _, _ => none
  | _, _ => none

/-- The loop `patches.reverse().forEach(...)`: apply the given patches in order,
stopping at the first crash. -/
def applyAll (lines : List Line) : List Patch → Option (List Line)
  | [] => some lines
  | p :: ps =>
    match applyOne lines p with
    | some l2 => applyAll l2 ps
    | none => none

/-- The mutation phase of `apply` (after all checks passed): the sorted
patches are processed in reverse order. -/
def applyBody (m : TextModel) (sorted : List Patch) : Except ApplyError TextModel :=
  match applyAll m.lines sorted.reverse with
  | some ls => .ok ⟨ls⟩
  | none => .error .typeError

/-- The method `TextModel.prototype.apply`: early return on an empty patch list; sort;
overlap scan; bounds check of the LAST sorted patch
(`end.line > lines.length || (end.line === lineCount && end.character > lastLine.content!.length)`,
where the second disjunct crashes when the model is empty or the last line's
content is `null`); then the reverse-order mutation loop. -/
def TextModel.apply (m : TextModel) (patches : List Patch) : Except ApplyError TextModel :=
  match patches with
  | [] => .ok m
  | _ :: _ =>
    let sorted := sortPatches patches
    if hasOverlap sorted then .error .overlap
    else
      match sorted.getLast? with
      | none => .ok m
      | some lastPatch =>
        if lastPatch.span.stop.line > m.lines.length then .error .outOfBounds
        else if lastPatch.span.stop.line = m.lines.length then
          match m.lines.getLast? with
          | none => .error .typeError
          | some lastLine =>
            match lastLine.content with
            | none => .error .typeError
            | some lc =>
              if lastPatch.span.stop.character > lc.length then .error .outOfBounds
              else applyBody m sorted
        else applyBody m sorted

/-- Length of the last line's content, as read by the bounds check
(`lastLine.content!.length`); defaults are irrelevant on models built by the
constructor, whose lines all have non-null content. -/
def lastContentLen (m : TextModel) : Nat :=
  match m.lines.getLast? with
  | some l => (l.content.getD "").length
  | none => 0

/-- The `unescapeMap` table of `analyze`: the eight recognized single-character
escapes and their replacements. -/
def unescapeMap (c : Char) : Option Char :=
  if c = '\'' then some '\''
  else if c = '"' then some '"'
  else if c = '\\' then some '\\'
  else if c = 'n' then some '\n'
  else if c = 'r' then some '\r'
  else if c = 't' then some '\t'
  else if c = 'b' then some (Char.ofNat 8)
  else if c = 'f' then some (Char.ofNat 12)
  else none

/-- The character loop of `unescapeString`: on a backslash with a successor in
the table, emit the replacement and skip the pair; otherwise emit the
character and continue with the next one. -/
def unescapeChars : List Char → List Char
  | [] => []
  | [c] => [c]
  | c :: c2 :: rest2 =>
    if c = '\\' then
      match unescapeMap c2 with
      | some r => r :: unescapeChars rest2
      | none => c :: unescapeChars (c2 :: rest2)
    else c :: unescapeChars (c2 :: rest2)

/-- The function `unescapeString` from `analyze`. -/
def unescapeString (s : String) : String := ⟨unescapeChars s.data⟩

/-- The slice `text.substr(1, text.length - 2)`: strips the surrounding quote characters
of a literal's `getText()`. -/
def stripQuotes (text : String) : String :=
  ⟨(text.data.drop 1).take (text.length - 2)⟩

/-- A key of a message bundle: a bare string or a `LocalizeInfo`
`{key, comment}` object. -/
inductive KeyInfo
  | str (s : String)
  | info (key : String) (comment : List String)
deriving DecidableEq, Repr

/-- The accessor `KeyInfo.key`: the resolved key string (`isString(value) ? value : value.key`). -/
def KeyInfo.key : KeyInfo → String
  | .str s => s
  | .info k _ => k

/-- The `interface JavaScriptMessageBundle`: parallel `messages`/`keys` arrays. -/
structure JavaScriptMessageBundle where
  messages : List String
  keys : List KeyInfo
deriving DecidableEq, Repr

/-- The shape of an expression node, as far as the analysis loop inspects it:
a string-literal-like node carrying its `getText()` (quotes included), an
object literal, an array literal, or anything else. -/
inductive NodeShape
  | strLit (text : String)
  | objLit (props : List (String × NodeShape))
  | arrayLit (elements : List NodeShape)
  | other

/-- An argument node of a recognized localize call: its shape together with
`node.pos` (start offset including leading trivia), `node.end`, and
`node.getLeadingTriviaWidth()`. -/
structure ArgNode where
  shape : NodeShape
  pos : Nat
  endOff : Nat
  triviaWidth : Nat

/-- A recognized localize call with both argument nodes present
(`arguments[0]` and `arguments[1]`).  Only the variable-reference recognition
path checks `arguments.length >= 2`; the inline recognition path
(a `nls.config({...})()(...)` or `nls.loadMessageBundle()(...)` call invoked
further) pushes the outer call with no arity check, so a recognized call site
may lack these arguments — such sites are `LocalizeCallSite` below, and this
two-argument form is what the processing loop reads once both arguments
exist. -/
structure LocalizeCall where
  firstArg : ArgNode
  secondArg : ArgNode

/-- A recognized localize call site as the recognizer actually produces it:
its argument-node list, possibly with fewer than two entries (the inline
path performs no arity check); `arguments[0]`/`arguments[1]` are then
`undefined`. -/
structure LocalizeCallSite where
  args : List ArgNode

/-- The two argument nodes the processing loop reads (`arguments[0]` and
`arguments[1]`), packaged as a `LocalizeCall`; meaningful when the site has
at least two arguments — the fallback branches are never reached under that
hypothesis. -/
def siteCall (s : LocalizeCallSite) : LocalizeCall :=
  match s.args with
  | fa :: sa :: _ => ⟨fa, sa⟩
  | [fa] => ⟨fa, fa⟩
  | [] => ⟨⟨.other, 0, 0, 0⟩, ⟨.other, 0, 0, 0⟩⟩

/-- A recognized load call (`nls.loadMessageBundle(...)` or
`nls.config({...})(...)`): its argument count and the offsets `args.pos` and
`args.end` of its argument-list span. -/
structure LoadCall where
  argCount : Nat
  argsPos : Nat
  argsEnd : Nat

/-- The key/comment extraction from an object-literal first argument: scan the
property assignments in order; a `key` property with a string-literal
initializer (re)assigns the key; a `comment` property with an array-literal
initializer appends its string-literal elements to the comment list. -/
def extractFromObject (props : List (String × NodeShape)) : Option String × List String :=
  props.foldl
    (fun acc prop =>
      if prop.1 = "key" then
        match prop.2 with
        | .strLit text => (some (stripQuotes text), acc.2)
        | _ => acc
      else if prop.1 = "comment" then
        match prop.2 with
        | .arrayLit elems =>
          (acc.1, acc.2 ++ elems.filterMap fun e =>
            match e with
            | .strLit t => some (stripQuotes t)
            | _ => none)
        | _ => acc
      else acc)
    (none, [])

/-- Key extraction for a localize call's first argument, including the
JavaScript `if (!key)` falsiness check (a missing key and an empty-string key
are both rejected). -/
def extractKeyComment (arg : ArgNode) : Option (String × List String) :=
  let kc : Option String × List String :=
    match arg.shape with
    | .strLit text => (some (stripQuotes text), [])
    | .objLit props => extractFromObject props
    | _ => (none, [])
  match kc.1 with
  | some k => if k = "" then none else some (k, kc.2)
  | none => none

/-- Message extraction for the second argument, including the `if (!message)`
falsiness check. -/
def extractMessage (arg : ArgNode) : Option String :=
  match arg.shape with
  | .strLit text =>
    let m := stripQuotes text
    if m = "" then none else some m
  | _ => none

/-- The patch replacing the key argument of an accepted localize call: span
from `firstArg.pos + firstArg.getLeadingTriviaWidth()` to `firstArg.end`,
content the decimal message index. -/
def keyPatch (lineChar : Nat → Pos) (idx : Nat) (c : LocalizeCall) : Patch :=
  { span := { start := lineChar (c.firstArg.pos + c.firstArg.triviaWidth)
            , stop := lineChar c.firstArg.endOff }
  , content := Nat.repr idx }

/-- The patch replacing the message argument of an accepted localize call:
span from `secondArg.pos + secondArg.getLeadingTriviaWidth()` to
`secondArg.end`, content the literal `null`. -/
def msgPatch (lineChar : Nat → Pos) (c : LocalizeCall) : Patch :=
  { span := { start := lineChar (c.secondArg.pos + c.secondArg.triviaWidth)
            , stop := lineChar c.secondArg.endOff }
  , content := "null" }

/-- The error reported when the first argument is not an acceptable key,
positioned at that argument's `pos` (stated on the argument node itself, for
call sites that may lack a second argument). -/
def keyErrorMsgAt (lineChar : Nat → Pos) (arg : ArgNode) : String :=
  let p := lineChar arg.pos
  "(" ++ Nat.repr (p.line + 1) ++ "," ++ Nat.repr (p.character + 1) ++
    "): first argument of a localize call must either be a string literal or an object literal of type LocalizeInfo."

/-- The error reported when the first argument is not an acceptable key. -/
def keyErrorMsg (lineChar : Nat → Pos) (c : LocalizeCall) : String :=
  let p := lineChar c.firstArg.pos
  "(" ++ Nat.repr (p.line + 1) ++ "," ++ Nat.repr (p.character + 1) ++
    "): first argument of a localize call must either be a string literal or an object literal of type LocalizeInfo."

/-- The error reported when the second argument is not a string literal. -/
def msgErrorMsg (lineChar : Nat → Pos) (c : LocalizeCall) : String :=
  let p := lineChar c.secondArg.pos
  "(" ++ Nat.repr (p.line + 1) ++ "," ++ Nat.repr (p.character + 1) ++
    "): second argument of a localize call must be a string literal."

/-- Result of the localize-call processing loop (`localizeCalls.reduce` in
`analyze`): the emitted patches, the collected errors, and the two bundle
arrays. -/
structure LocResult where
  patches : List Patch
  errors : List String
  messages : List String
  keys : List KeyInfo

/-- The localize-call processing loop of `analyze`: for each call, extract the
key (string literal or object literal) and the message (string literal); a
failure records an error and skips the call without consuming a message
index; an accepted call emits the key patch and the message patch, appends
the unescaped message and the key (structured iff comments were collected) to
the bundle, and increments the message index. -/
def processLocalizeCalls (lineChar : Nat → Pos) : Nat → List LocalizeCall → LocResult
  | _, [] => ⟨[], [], [], []⟩
  | idx, c :: rest =>
    match extractKeyComment c.firstArg with
    | none =>
      let r := processLocalizeCalls lineChar idx rest
      { r with errors := keyErrorMsg lineChar c :: r.errors }
    | some kc =>
      match extractMessage c.secondArg with
      | none =>
        let r := processLocalizeCalls lineChar idx rest
        { r with errors := msgErrorMsg lineChar c :: r.errors }
      | some msg =>
        let r := processLocalizeCalls lineChar (idx + 1) rest
        { patches := keyPatch lineChar idx c :: msgPatch lineChar c :: r.patches
        , errors := r.errors
        , messages := unescapeString msg :: r.messages
        , keys := (if kc.2 = [] then .str kc.1 else .info kc.1 kc.2) :: r.keys }

/-- The localize-call processing loop over call sites as actually recognized,
possibly with fewer than two arguments.  Reading the shape of a missing
argument (`ts.isStringLiteralLike(undefined)` for a zero-argument call, or
`ts.isStringLiteralLike(secondArg)` for a one-argument call whose key
extracted) throws a `TypeError`; `.error ()` is that crash, which propagates
out of `analyze` and discards every contribution.  Note the key-rejection
branch skips the call before the second argument is ever read, mirroring the
early `return memo` at the `if (!key)` check. -/
def processCallSites (lineChar : Nat → Pos) :
    Nat → List LocalizeCallSite → Except Unit LocResult
  | _, [] => .ok ⟨[], [], [], []⟩
  | idx, s :: rest =>
    match s.args[0]? with
    | none => .error ()
    | some fa =>
      match extractKeyComment fa with
      | none =>
        match processCallSites lineChar idx rest with
        | .ok r => .ok { r with errors := keyErrorMsgAt lineChar fa :: r.errors }
        | .error e => .error e
      | some kc =>
        match s.args[1]? with
        | none => .error ()
        | some sa =>
          match extractMessage sa with
          | none =>
            match processCallSites lineChar idx rest with
            | .ok r => .ok { r with errors := msgErrorMsg lineChar ⟨fa, sa⟩ :: r.errors }
            | .error e => .error e
          | some msg =>
            match processCallSites lineChar (idx + 1) rest with
            | .ok r =>
              .ok { patches := keyPatch lineChar idx ⟨fa, sa⟩ ::
                      msgPatch lineChar ⟨fa, sa⟩ :: r.patches
                  , errors := r.errors
                  , messages := unescapeString msg :: r.messages
                  , keys := (if kc.2 = [] then .str kc.1 else .info kc.1 kc.2) :: r.keys }
            | .error e => .error e

/-- A single-quote character, used to build the generated filename expression. -/
def squote : String := ⟨['\'']⟩

/-- The substitution doubling every backslash of the relative filename. -/
def escapeBackslashes (s : String) : String :=
  ⟨s.data.flatMap fun c => if c = '\\' then ['\\', '\\'] else [c]⟩

/-- The content of the patch inserted into a zero-argument load call:
`__filename`, or a `require('path').join(__dirname, '<file>')` expression when
a relative filename was supplied. -/
def filenameExpr : Option String → String
  | none => "__filename"
  | some fn =>
    "require(" ++ squote ++ "path" ++ squote ++ ").join(__dirname, " ++ squote ++
      escapeBackslashes fn ++ squote ++ ")"

/-- The `interface AnalysisResult`. -/
structure AnalysisResult where
  patches : List Patch
  errors : List String
  bundle : JavaScriptMessageBundle

/-- The patch-emitting portion of `analyze`, over the recognized load calls
and localize calls produced by the TypeScript front end (which is abstracted,
together with `ts.getLineAndCharacterOfPosition` as `lineChar`): every
zero-argument load call gets a filename patch over its argument-list span,
then the localize calls are processed. -/
def analyzeModel (loadCalls : List LoadCall) (localizeCalls : List LocalizeCall)
    (relativeFilename : Option String) (lineChar : Nat → Pos) : AnalysisResult :=
  let loadPatches := loadCalls.filterMap fun l =>
    if l.argCount = 0 then
      some { span := { start := lineChar l.argsPos, stop := lineChar l.argsEnd }
           , content := filenameExpr relativeFilename }
    else none
  let r := processLocalizeCalls lineChar 0 localizeCalls
  { patches := loadPatches ++ r.patches
  , errors := r.errors
  , bundle := { messages := r.messages, keys := r.keys } }

/-- The result record of `processFile`; the source map is modelled only by its
presence (`generateSourceMap` returns a string exactly when an input map was
supplied). -/
structure ProcessResult where
  contents : Option String
  sourceMap : Option Unit
  bundle : Option JavaScriptMessageBundle
  errors : List String
deriving DecidableEq, Repr

/-- The function `processFile`: analyze; when no patches were produced return with
`contents`/`sourceMap`/`bundle` all `undefined`; otherwise build the text
model, apply the patches (a thrown engine error propagates), and serialize. -/
def processFile (contents : String) (hasSourceMap : Bool) (loadCalls : List LoadCall)
    (localizeCalls : List LocalizeCall) (relativeFilename : Option String)
    (lineChar : Nat → Pos) : Except ApplyError ProcessResult :=
  let r := analyzeModel loadCalls localizeCalls relativeFilename lineChar
  if r.patches.isEmpty then
    .ok { contents := none, sourceMap := none, bundle := none, errors := r.errors }
  else
    match (TextModel.make contents).apply r.patches with
    | .ok m =>
      .ok { contents := some m.toString
          , sourceMap := if hasSourceMap then some () else none
          , bundle := some r.bundle
          , errors := r.errors }
    | .error e => .error e

/-- The canonicalized bundle (`interface ResolvedJavaScriptMessageBundle`):
the `map` object is modelled as a lookup function. -/
structure ResolvedJavaScriptMessageBundle where
  messages : List String
  keys : List String
  map : String → Option String

/-- One JavaScript object-property assignment `m[k] = v`. -/
def assignMap (m : String → Option String) (k v : String) : String → Option String :=
  fun x => if x = k then some v else m x

/-- The function `resolveMessageBundle` on a `JavaScriptMessageBundle`: `null` when the two
arrays differ in length, otherwise the unwrapped key list and the key→message
map built by assigning in array order. -/
def resolveMessageBundle (b : JavaScriptMessageBundle) :
    Option ResolvedJavaScriptMessageBundle :=
  if b.messages.length ≠ b.keys.length then none
  else
    some { messages := b.messages
         , keys := b.keys.map KeyInfo.key
         , map := ((b.keys.map KeyInfo.key).zip b.messages).foldl
             (fun m kv => assignMap m kv.1 kv.2) (fun _ => none) }

/-- The per-key loop of `ResolvedJavaScriptMessageBundle.asTranslatedMessages`:
returns the produced values (`none` models a JavaScript `undefined` entry) and
the problem strings pushed, in order. -/
def atmGo (map : String → Option String) (tm : Option (String → Option String)) :
    List String → List (Option String) × List String
  | [] => ([], [])
  | k :: ks =>
    let translated : Option String :=
      match tm with
      | some f => f k
      | none => none
    let rest := atmGo map tm ks
    match translated with
    | some v => (some v :: rest.1, rest.2)
    | none =>
      let probs :=
        match tm with
        | some _ => ["No localized message found for key " ++ k]
        | none => []
      (map k :: rest.1, probs ++ rest.2)

/-- The method `ResolvedJavaScriptMessageBundle.asTranslatedMessages`: the `problems`
array is passed in and appended to. -/
def asTranslatedMessages (bundle : ResolvedJavaScriptMessageBundle)
    (translatedMessages : Option (String → Option String)) (problems : List String) :
    List (Option String) × List String :=
  let r := atmGo bundle.map translatedMessages bundle.keys
  (r.1, problems ++ r.2)

/-- A JavaScript value stored in the object built by `bundle2keyValuePair`:
a message string, or a comment array (kept as an array when no comment
separator was supplied). -/
inductive JSVal
  | str (s : String)
  | arr (l : List String)
deriving DecidableEq, Repr

/-- The duplicated-key error message of `bundle2keyValuePair`. -/
def dupKeyMsg (key : String) : String :=
  "The following key is duplicated: \"" ++ key ++ "\". Please use unique keys."

/-- The loop of `bundle2keyValuePair` over index-aligned (message, key) pairs;
`acc` is the object built so far, as an insertion-ordered property list.
`key in result` checks against every property inserted so far, including the
`_<key>.comments` entries.  A `LocalizeInfo` key always yields a comments
entry (`if (comments)` is truthy even for an empty array), joined with the
separator when a non-empty one was supplied (`if (commentSeparator)` is a
truthiness test). -/
def b2kvpGo (sep : Option String) :
    List (String × KeyInfo) → List (String × JSVal) → Except String (List (String × JSVal))
  | [], acc => .ok acc
  | (msg, ki) :: rest, acc =>
    let key := ki.key
    if acc.any (fun p => p.1 = key) then .error (dupKeyMsg key)
    else
      let acc1 := acc ++ [(key, JSVal.str msg)]
      let acc2 :=
        match ki with
        | .info _ cs =>
          acc1 ++ [("_" ++ key ++ ".comments",
            match sep with
            | some s => if s = "" then JSVal.arr cs else JSVal.str (String.intercalate s cs)
            | none => JSVal.arr cs)]
        | .str _ => acc1
      b2kvpGo sep rest acc2

/-- The function `bundle2keyValuePair`: the loop runs for `i < messages.length` reading
`keys[i]`, modelled by zipping the two arrays (exact when
`keys.length ≥ messages.length`; the claims are stated for index-aligned
bundles). -/
def bundle2keyValuePair (b : JavaScriptMessageBundle) (sep : Option String) :
    Except String (List (String × JSVal)) :=
  b2kvpGo sep (b.messages.zip b.keys) []

/-- A localize call is accepted when both its key and its message extract
successfully. -/
def acceptedLocalize (c : LocalizeCall) : Bool :=
  (extractKeyComment c.firstArg).isSome && (extractMessage c.secondArg).isSome

/-- The accepted sublist of the recognized localize calls, in source order. -/
def acceptedCalls (calls : List LocalizeCall) : List LocalizeCall :=
  calls.filter acceptedLocalize

/-- The bundle key contributed by an accepted localize call: the bare string,
or the structured form when comments are present. -/
def keyInfoOf (c : LocalizeCall) : KeyInfo :=
  match extractKeyComment c.firstArg with
  | some kc => if kc.2 = [] then .str kc.1 else .info kc.1 kc.2
  | none => .str ""

/-- The bundle message contributed by an accepted localize call: its message
literal, quotes stripped and escapes resolved. -/
def messageOf (c : LocalizeCall) : String :=
  unescapeString ((extractMessage c.secondArg).getD "")

/-- The object `bundle2keyValuePair` builds when no property-name collision
occurs: each key maps to its message, and each `LocalizeInfo` key is followed
by its `_<key>.comments` entry. -/
def c10Entries (sep : Option String) (pairs : List (String × KeyInfo)) :
    List (String × JSVal) :=
  pairs.flatMap fun p =>
    match p.2 with
    | .str k => [(k, JSVal.str p.1)]
    | .info k cs =>
      [(k, JSVal.str p.1),
       ("_" ++ k ++ ".comments",
         match sep with
         | some s => if s = "" then JSVal.arr cs else JSVal.str (String.intercalate s cs)
         | none => JSVal.arr cs)]

/-- The error recorded for a rejected localize call: the key error when the
first argument fails to supply a key, else the message error when the second
argument is not a (non-empty) string literal, else nothing. -/
def rejectError (lineChar : Nat → Pos) (c : LocalizeCall) : Option String :=
  match extractKeyComment c.firstArg with
  | none => some (keyErrorMsg lineChar c)
  | some _ =>
    match extractMessage c.secondArg with
    | none => some (msgErrorMsg lineChar c)
    | some _ => none

/-- The per-key behaviour of `atmGo`: values use the translation when
defined, the bundle map otherwise; one problem is recorded for each key
missing from a supplied translation map, and none when no map was supplied. -/
theorem atmGo_spec (map : String → Option String) (tm : Option (String → Option String))
    (ks : List String) :
    (atmGo map tm ks).1 =
      ks.map (fun k =>
        match tm with
        | some f => match f k with | some v => some v | none => map k
        | none => map k) ∧
    (atmGo map tm ks).2 =
      (match tm with
       | none => []
       | some f => (ks.filter fun k => (f k).isNone).map
           (fun k => "No localized message found for key " ++ k)) := by
  induction ks with
  | nil => cases tm <;> simp [atmGo]
  | cons k ks ih =>
    cases tm with
    | none => simpa [atmGo] using ih
    | some f =>
      cases hfk : f k with
      | none => simp [atmGo, hfk, List.filter_cons, ih.1, ih.2]
      | some v => simp [atmGo, hfk, List.filter_cons, ih.1, ih.2]

/-- Claim C1: `TextModel.apply` is claimed to raise the overlapping-edits
error exactly when, after sorting by start position, some consecutive pair of
patches overlaps.  The overlap scan in the code never advances `previousSpan`,
so it only compares the first sorted patch against the later ones: on the
three patches below the second and third patches overlap (the earlier one's
end `(0,6)` is at the later one's start `(0,6)`), yet `apply` raises nothing
and splices all three patches. -/
theorem c1_overlap_missed :
    noConsecOverlap (sortPatches
        [⟨⟨⟨0, 0⟩, ⟨0, 1⟩⟩, "X"⟩, ⟨⟨⟨0, 5⟩, ⟨0, 6⟩⟩, "Y"⟩, ⟨⟨⟨0, 6⟩, ⟨0, 7⟩⟩, "Z"⟩]) = false ∧
    TextModel.apply (TextModel.make "abcdefgh")
        [⟨⟨⟨0, 0⟩, ⟨0, 1⟩⟩, "X"⟩, ⟨⟨⟨0, 5⟩, ⟨0, 6⟩⟩, "Y"⟩, ⟨⟨⟨0, 6⟩, ⟨0, 7⟩⟩, "Z"⟩]
      = .ok ⟨[⟨some "XbcdeYZh", ""⟩]⟩ :=
  ⟨rfl, rfl⟩

/-- Claim C2: the round trip `toString ∘ constructor` is claimed to be
byte-identical for every input, including texts with empty lines.  The
serializer skips every line with falsy content — which in JavaScript drops
empty-string lines along with the nulled ones — so the input `"a\n\nb"` with
zero patches applied serializes to `"a\nb"`, losing the empty line's
terminator. -/
theorem c2_roundtrip_fails :
    (TextModel.make "a\n\nb").apply [] = .ok (TextModel.make "a\n\nb") ∧
    (TextModel.make "a\n\nb").toString = "a\nb" ∧
    "a\nb" ≠ "a\n\nb" :=
  ⟨rfl, rfl, by decide⟩

/-- Claim C6: in a stored bundle message, a backslash followed by one of
`n`, `r`, `t`, `b`, `f`, backslash, single quote or double quote becomes the
corresponding literal character; a backslash followed by any other character,
or a trailing backslash, is kept verbatim (`unescapeString` is the character
scan `unescapeChars`). -/
theorem c6_unescape (c : Char) (cs : List Char) :
    unescapeChars ('\\' :: 'n' :: cs) = '\n' :: unescapeChars cs ∧
    unescapeChars ('\\' :: 'r' :: cs) = '\r' :: unescapeChars cs ∧
    unescapeChars ('\\' :: 't' :: cs) = '\t' :: unescapeChars cs ∧
    unescapeChars ('\\' :: 'b' :: cs) = Char.ofNat 8 :: unescapeChars cs ∧
    unescapeChars ('\\' :: 'f' :: cs) = Char.ofNat 12 :: unescapeChars cs ∧
    unescapeChars ('\\' :: '\\' :: cs) = '\\' :: unescapeChars cs ∧
    unescapeChars ('\\' :: '\'' :: cs) = '\'' :: unescapeChars cs ∧
    unescapeChars ('\\' :: '"' :: cs) = '"' :: unescapeChars cs ∧
    (c ∉ ['n', 'r', 't', 'b', 'f', '\\', '\'', '"'] →
      unescapeChars ('\\' :: c :: cs) = '\\' :: c :: unescapeChars cs) ∧
    unescapeChars ['\\'] = ['\\'] ∧
    unescapeString ⟨'\\' :: c :: cs⟩ = ⟨unescapeChars ('\\' :: c :: cs)⟩ := by
  refine ⟨rfl, rfl, rfl, rfl, rfl, rfl, rfl, rfl, ?_, rfl, rfl⟩
  intro hmem
  simp only [List.mem_cons, List.not_mem_nil, or_false, not_or] at hmem
  obtain ⟨h1, h2, h3, h4, h5, h6, h7, h8⟩ := hmem
  have hmap : unescapeMap c = none := by
    simp [unescapeMap, h1, h2, h3, h4, h5, h6, h7, h8]
  have hc : c ≠ '\\' := h6
  cases cs with
  | nil => simp [unescapeChars, hmap, hc]
  | cons d ds => simp [unescapeChars, hmap, hc]

/-- Witness for C6 at the unrecognized escape `\q`. -/
theorem c6_unescape_witness :
    ('q' ∉ ['n', 'r', 't', 'b', 'f', '\\', '\'', '"']) ∧
    unescapeChars ['\\', 'q', 'x'] = '\\' :: 'q' :: unescapeChars ['x'] :=
  ⟨by decide, ((c6_unescape 'q' ['x']).2.2.2.2.2.2.2.2.1 (by decide))⟩

/-- Claim C8: `asTranslatedMessages` yields, for each key in bundle order,
the translated value when the supplied map defines it and the original
message otherwise; a "no localized message found" problem is appended exactly
for the keys missing from a supplied map, and no problem when no map was
supplied. -/
theorem c8_as_translated (b : ResolvedJavaScriptMessageBundle)
    (tm : Option (String → Option String)) (problems : List String) :
    (asTranslatedMessages b tm problems).1 =
      b.keys.map (fun k =>
        match tm with
        | some f => match f k with | some v => some v | none => b.map k
        | none => b.map k) ∧
    (asTranslatedMessages b tm problems).2 =
      problems ++
        (match tm with
         | none => []
         | some f => (b.keys.filter fun k => (f k).isNone).map
             (fun k => "No localized message found for key " ++ k)) := by
  have h := atmGo_spec b.map tm b.keys
  exact ⟨h.1, by rw [asTranslatedMessages, h.2]⟩

/-- Folding JavaScript property assignments over a pair list looks up the
LAST assignment of a key (later assignments overwrite earlier ones). -/
theorem foldl_assignMap (l : List (String × String)) (init : String → Option String)
    (k : String) :
    (l.foldl (fun m kv => assignMap m kv.1 kv.2) init) k =
      match l.reverse.find? (fun p => p.1 == k) with
      | some p => some p.2
      | none => init k := by
  induction l generalizing init with
  | nil => simp
  | cons a l ih =>
    rw [List.foldl_cons, ih, List.reverse_cons, List.find?_append]
    cases hfa : l.reverse.find? (fun p => p.1 == k) with
    | some p => simp [hfa, Option.or]
    | none =>
      by_cases hk : a.1 = k
      · simp [hfa, hk, Option.or, assignMap]
      · have hbeq : (a.1 == k) = false := by simpa using hk
        simp [hfa, hbeq, Option.or, assignMap, show ¬ k = a.1 from fun h => hk h.symm]

/-- Claim C7: `resolveMessageBundle` fails (returns `null`) exactly when the
`messages` and `keys` arrays differ in length; otherwise it returns the keys
unwrapped to plain strings in array order, and a map in which each key is
bound to the message of its LAST occurrence (a later duplicate silently
overwrites an earlier one), never an error. -/
theorem c7_resolve (b : JavaScriptMessageBundle) :
    (resolveMessageBundle b = none ↔ b.messages.length ≠ b.keys.length) ∧
    (b.messages.length = b.keys.length →
      resolveMessageBundle b = some
        { messages := b.messages
        , keys := b.keys.map KeyInfo.key
        , map := fun k =>
            (((b.keys.map KeyInfo.key).zip b.messages).reverse.find?
                (fun p => p.1 == k)).map Prod.snd }) := by
  by_cases h : b.messages.length = b.keys.length
  · constructor
    · rw [resolveMessageBundle, if_neg (by omega)]
      simp [h]
    · intro _
      rw [resolveMessageBundle, if_neg (by omega)]
      have hmap :
          (((b.keys.map KeyInfo.key).zip b.messages).foldl
              (fun m kv => assignMap m kv.1 kv.2) (fun _ => none)) =
            fun k =>
              (((b.keys.map KeyInfo.key).zip b.messages).reverse.find?
                  (fun p => p.1 == k)).map Prod.snd := by
        funext k
        rw [foldl_assignMap]
        cases hf : ((b.keys.map KeyInfo.key).zip b.messages).reverse.find?
            (fun p => p.1 == k) <;> simp [hf]
      rw [hmap]
  · constructor
    · rw [resolveMessageBundle, if_pos h]
      simp [h]
    · intro hc
      exact absurd hc h

/-- Witness for C7 on a bundle with a duplicated key: resolution succeeds and
the duplicate's later message wins. -/
theorem c7_resolve_witness :
    (["m1", "m2"] : List String).length = [KeyInfo.str "a", KeyInfo.str "a"].length ∧
    resolveMessageBundle ⟨["m1", "m2"], [.str "a", .str "a"]⟩ = some
      { messages := ["m1", "m2"]
      , keys := [KeyInfo.str "a", KeyInfo.str "a"].map KeyInfo.key
      , map := fun k =>
          ((([KeyInfo.str "a", KeyInfo.str "a"].map KeyInfo.key).zip ["m1", "m2"]).reverse.find?
              (fun p => p.1 == k)).map Prod.snd } :=
  ⟨by decide, (c7_resolve ⟨["m1", "m2"], [.str "a", .str "a"]⟩).2 (by decide)⟩

/-- Full characterization of the localize-call processing loop: the bundle
arrays are the per-accepted-call message and key in order, the errors are the
per-rejected-call diagnostics, and the patch list is the concatenation, over
the accepted calls enumerated from the starting index, of the key patch and
the message patch. -/
theorem processLoc_spec (lineChar : Nat → Pos) (calls : List LocalizeCall) (idx : Nat) :
    processLocalizeCalls lineChar idx calls =
      { patches := ((acceptedCalls calls).enumFrom idx).flatMap
          (fun ic => [keyPatch lineChar ic.1 ic.2, msgPatch lineChar ic.2])
      , errors := calls.filterMap (rejectError lineChar)
      , messages := (acceptedCalls calls).map messageOf
      , keys := (acceptedCalls calls).map keyInfoOf } := by
  induction calls generalizing idx with
  | nil => rfl
  | cons c rest ih =>
    cases hk : extractKeyComment c.firstArg with
    | none =>
      have hacc : acceptedLocalize c = false := by
        simp [acceptedLocalize, hk]
      simp [processLocalizeCalls, hk, ih, acceptedCalls, List.filter_cons, hacc,
        List.filterMap_cons, rejectError]
    | some kc =>
      cases hm : extractMessage c.secondArg with
      | none =>
        have hacc : acceptedLocalize c = false := by
          simp [acceptedLocalize, hk, hm]
        simp [processLocalizeCalls, hk, hm, ih, acceptedCalls, List.filter_cons, hacc,
          List.filterMap_cons, rejectError]
      | some msg =>
        have hacc : acceptedLocalize c = true := by
          simp [acceptedLocalize, hk, hm]
        have hmsg : unescapeString msg = messageOf c := by
          simp [messageOf, hm]
        have hkey : (if kc.2 = [] then KeyInfo.str kc.1 else KeyInfo.info kc.1 kc.2)
            = keyInfoOf c := by
          simp [keyInfoOf, hk]
        simp [processLocalizeCalls, hk, hm, ih, acceptedCalls, List.filter_cons, hacc,
          List.filterMap_cons, rejectError, hmsg, hkey, List.enumFrom]

/-- An argument list of length at least two starts with two argument nodes. -/
theorem exists_two_args (l : List ArgNode) (h : 2 ≤ l.length) :
    ∃ fa sa tail, l = fa :: sa :: tail := by
  cases l with
  | nil => simp at h
  | cons a t =>
    cases t with
    | nil => simp at h
    | cons b t2 => exact ⟨a, b, t2, rfl⟩

/-- Under the at-least-two-arguments hypothesis, the call-site loop never
crashes and agrees with the two-argument loop on the packaged calls. -/
theorem processCallSites_ok (lineChar : Nat → Pos) (sites : List LocalizeCallSite) :
    ∀ idx, (∀ s ∈ sites, 2 ≤ s.args.length) →
      processCallSites lineChar idx sites =
        .ok (processLocalizeCalls lineChar idx (sites.map siteCall)) := by
  induction sites with
  | nil =>
    intro idx _
    rfl
  | cons s rest ih =>
    intro idx h
    have hs : 2 ≤ s.args.length := h s (List.mem_cons_self s rest)
    have hrest : ∀ t ∈ rest, 2 ≤ t.args.length := fun t ht => h t (List.mem_cons_of_mem s ht)
    obtain ⟨fa, sa, tail, hargs⟩ := exists_two_args s.args hs
    have h0 : s.args[0]? = some fa := by rw [hargs]; simp
    have h1 : s.args[1]? = some sa := by rw [hargs]; simp
    have hcall : siteCall s = ⟨fa, sa⟩ := by unfold siteCall; rw [hargs]
    cases hk : extractKeyComment fa with
    | none =>
      simp only [processCallSites, h0, hk, ih idx hrest, List.map_cons, hcall,
        processLocalizeCalls, keyErrorMsg, keyErrorMsgAt]
    | some kc =>
      cases hm2 : extractMessage sa with
      | none =>
        simp only [processCallSites, h0, h1, hk, hm2, ih idx hrest, List.map_cons, hcall,
          processLocalizeCalls]
      | some msg =>
        simp only [processCallSites, h0, h1, hk, hm2, ih (idx + 1) hrest, List.map_cons, hcall,
          processLocalizeCalls]

/-- Claim C3 counterexample: the inline recognition path has no arity check,
so a file can contain an accepted two-argument localize call (key `"k"`,
message `"m"`) followed by a recognized one-argument call.  The claim says
the accepted call contributes `messages[0]`/`keys[0]` and two patches; in
fact the loop reads the shape of the missing second argument
(`ts.isStringLiteralLike(undefined)`), throws a `TypeError`, and `analyze`
crashes — emitting no bundle entry and no patch at all. -/
theorem c3_counterexample :
    processCallSites (fun n => ⟨0, n⟩) 0
        [⟨[⟨.strLit "\"k\"", 9, 14, 0⟩, ⟨.strLit "\"m\"", 15, 20, 0⟩]⟩,
         ⟨[⟨.strLit "\"q\"", 30, 35, 0⟩]⟩] = .error () ∧
    acceptedLocalize (siteCall ⟨[⟨.strLit "\"k\"", 9, 14, 0⟩, ⟨.strLit "\"m\"", 15, 20, 0⟩]⟩)
      = true ∧
    messageOf (siteCall ⟨[⟨.strLit "\"k\"", 9, 14, 0⟩, ⟨.strLit "\"m\"", 15, 20, 0⟩]⟩) = "m" :=
  ⟨rfl, rfl, rfl⟩

/-- Claim C3, amended: for every input file in which every recognized
localize call has at least two arguments, the loop returns (no crash), and
the i-th accepted localize call (zero based, in order) contributes exactly
`messages[i]` (its message literal, quotes stripped, escapes resolved) and
`keys[i]` (its bare key, or the structured key/comment form when comments
are present), and exactly two patches are emitted for it: one replacing the
key argument's span (leading trivia excluded) with the decimal literal `i`,
and one replacing the message argument's span (leading trivia excluded) with
the literal `null` — the remaining arguments are untouched. -/
theorem c3_amended (lineChar : Nat → Pos) (sites : List LocalizeCallSite)
    (loadCalls : List LoadCall) (relFn : Option String)
    (h : ∀ s ∈ sites, 2 ≤ s.args.length) :
    processCallSites lineChar 0 sites =
      .ok (processLocalizeCalls lineChar 0 (sites.map siteCall)) ∧
    (analyzeModel loadCalls (sites.map siteCall) relFn lineChar).bundle.messages =
      (acceptedCalls (sites.map siteCall)).map messageOf ∧
    (analyzeModel loadCalls (sites.map siteCall) relFn lineChar).bundle.keys =
      (acceptedCalls (sites.map siteCall)).map keyInfoOf ∧
    (processLocalizeCalls lineChar 0 (sites.map siteCall)).patches =
      ((acceptedCalls (sites.map siteCall)).enumFrom 0).flatMap
        (fun ic =>
          [{ span := { start := lineChar (ic.2.firstArg.pos + ic.2.firstArg.triviaWidth)
                     , stop := lineChar ic.2.firstArg.endOff }
           , content := Nat.repr ic.1 },
           { span := { start := lineChar (ic.2.secondArg.pos + ic.2.secondArg.triviaWidth)
                     , stop := lineChar ic.2.secondArg.endOff }
           , content := "null" }]) := by
  refine ⟨processCallSites_ok lineChar sites 0 h, ?_, ?_, ?_⟩
  · rw [analyzeModel, processLoc_spec]
  · rw [analyzeModel, processLoc_spec]
  · rw [processLoc_spec]
    rfl

/-- Witness for C3 (amended) on a single two-argument call site. -/
theorem c3_amended_witness :
    (∀ s ∈ ([⟨[⟨.strLit "\"k\"", 9, 14, 0⟩, ⟨.strLit "\"m\"", 15, 20, 0⟩]⟩] :
        List LocalizeCallSite), 2 ≤ s.args.length) ∧
    processCallSites (fun n => ⟨0, n⟩) 0
        [⟨[⟨.strLit "\"k\"", 9, 14, 0⟩, ⟨.strLit "\"m\"", 15, 20, 0⟩]⟩] =
      .ok (processLocalizeCalls (fun n => ⟨0, n⟩) 0
        ([⟨[⟨.strLit "\"k\"", 9, 14, 0⟩, ⟨.strLit "\"m\"", 15, 20, 0⟩]⟩].map siteCall)) :=
  ⟨fun s hs => by rw [List.mem_singleton] at hs; rw [hs]; decide,
   (c3_amended (fun n => ⟨0, n⟩)
      [⟨[⟨.strLit "\"k\"", 9, 14, 0⟩, ⟨.strLit "\"m\"", 15, 20, 0⟩]⟩] [] none
      (fun s hs => by rw [List.mem_singleton] at hs; rw [hs]; decide)).1⟩

/-- Claim C9: the bundle produced by analysis always has `messages` and
`keys` of equal length — one entry per accepted localize call — before any
resolution step. -/
theorem c9_bundle_parallel (loadCalls : List LoadCall) (calls : List LocalizeCall)
    (relFn : Option String) (lineChar : Nat → Pos) :
    (analyzeModel loadCalls calls relFn lineChar).bundle.messages.length =
      (analyzeModel loadCalls calls relFn lineChar).bundle.keys.length ∧
    (analyzeModel loadCalls calls relFn lineChar).bundle.messages.length =
      (acceptedCalls calls).length := by
  have h := processLoc_spec lineChar calls 0
  constructor
  · simp [analyzeModel, h]
  · simp [analyzeModel, h]

/-- Claim C4 counterexample: a file whose analyzer output has zero localize
calls but one zero-argument load call.  The claim says analysis yields an
empty patch list and `processFile` passes the file through with `contents`
absent; in fact the load call's argument span is patched with `__filename`
and `processFile` returns rewritten contents. -/
theorem c4_counterexample :
    (analyzeModel [⟨0, 2, 2⟩] [] none (fun n => ⟨0, n⟩)).patches ≠ [] ∧
    processFile "x()" false [⟨0, 2, 2⟩] [] none (fun n => ⟨0, n⟩) =
      .ok ⟨some "x(__filename)", none, some ⟨[], []⟩, []⟩ :=
  ⟨by decide, rfl⟩

/-- Claim C4, amended: when the analyzer recognizes zero localize calls AND
no zero-argument load call, analysis yields empty patches, empty errors and
an empty bundle, and `processFile` returns `contents` and `sourceMap` both
absent. -/
theorem c4_amended (text : String) (hasSM : Bool) (loadCalls : List LoadCall)
    (relFn : Option String) (lineChar : Nat → Pos)
    (h : ∀ l ∈ loadCalls, l.argCount ≠ 0) :
    analyzeModel loadCalls [] relFn lineChar = ⟨[], [], ⟨[], []⟩⟩ ∧
    processFile text hasSM loadCalls [] relFn lineChar = .ok ⟨none, none, none, []⟩ := by
  have hload : (loadCalls.filterMap fun l =>
      if l.argCount = 0 then
        some { span := { start := lineChar l.argsPos, stop := lineChar l.argsEnd }
             , content := filenameExpr relFn }
      else (none : Option Patch)) = [] := by
    rw [List.filterMap_eq_nil_iff]
    intro l hl
    rw [if_neg (h l hl)]
  have hres : analyzeModel loadCalls [] relFn lineChar = ⟨[], [], ⟨[], []⟩⟩ := by
    rw [analyzeModel]
    simp only [hload]
    rfl
  refine ⟨hres, ?_⟩
  rw [processFile, hres]
  rfl

/-- Witness for C4 (amended) on a one-argument load call. -/
theorem c4_amended_witness :
    (∀ l ∈ ([⟨1, 2, 3⟩] : List LoadCall), l.argCount ≠ 0) ∧
    (analyzeModel [⟨1, 2, 3⟩] [] (some "foo.js") (fun n => ⟨0, n⟩) = ⟨[], [], ⟨[], []⟩⟩ ∧
     processFile "t" true [⟨1, 2, 3⟩] [] (some "foo.js") (fun n => ⟨0, n⟩) =
       .ok ⟨none, none, none, []⟩) :=
  ⟨by intro l hl; rw [List.mem_singleton] at hl; rw [hl]; decide,
   c4_amended "t" true [⟨1, 2, 3⟩] (some "foo.js") (fun n => ⟨0, n⟩)
     (by intro l hl; rw [List.mem_singleton] at hl; rw [hl]; decide)⟩

/-- One non-throwing step of the `bundle2keyValuePair` loop appends exactly
the entries of the pair being processed. -/
theorem b2kvpGo_cons (sep : Option String) (msg : String) (ki : KeyInfo)
    (rest : List (String × KeyInfo)) (acc : List (String × JSVal))
    (hany : (acc.any fun q => q.1 = ki.key) = false) :
    b2kvpGo sep ((msg, ki) :: rest) acc
      = b2kvpGo sep rest (acc ++ c10Entries sep [(msg, ki)]) := by
  rw [b2kvpGo, if_neg (by rw [hany]; exact Bool.false_ne_true)]
  cases ki with
  | str k => simp [c10Entries, KeyInfo.key]
  | info k cs => simp [c10Entries, KeyInfo.key, List.append_assoc]

/-- The key of the pair being processed is among the property names its step
inserts (it is the first of them). -/
theorem c10Entries_head_mem (sep : Option String) (msg : String) (ki : KeyInfo) :
    ki.key ∈ (c10Entries sep [(msg, ki)]).map Prod.fst := by
  cases ki <;> simp [c10Entries, KeyInfo.key]

/-- Splitting the expected entries at the first pair. -/
theorem c10Entries_cons (sep : Option String) (p : String × KeyInfo)
    (rest : List (String × KeyInfo)) :
    c10Entries sep (p :: rest) = c10Entries sep [p] ++ c10Entries sep rest := by
  simp [c10Entries]

/-- When some remaining resolved key repeats, or is already an inserted
property name, the `bundle2keyValuePair` loop throws. -/
theorem b2kvpGo_error (sep : Option String) (pairs : List (String × KeyInfo)) :
    ∀ acc : List (String × JSVal),
      (¬ (pairs.map fun p => p.2.key).Nodup ∨
        ∃ k ∈ pairs.map (fun p => p.2.key), k ∈ acc.map Prod.fst) →
      ∃ e, b2kvpGo sep pairs acc = .error e := by
  induction pairs with
  | nil =>
    intro acc h
    rcases h with h | ⟨k, hk, _⟩
    · simp at h
    · simp at hk
  | cons p rest ih =>
    intro acc h
    obtain ⟨msg, ki⟩ := p
    by_cases hin : ki.key ∈ acc.map Prod.fst
    · have hany : (acc.any fun q => q.1 = ki.key) = true := by
        rw [List.any_eq_true]
        obtain ⟨q, hq, hq2⟩ := List.mem_map.mp hin
        exact ⟨q, hq, by simp [hq2]⟩
      rw [b2kvpGo, if_pos hany]
      exact ⟨_, rfl⟩
    · have hany : (acc.any fun q => q.1 = ki.key) = false := by
        rw [List.any_eq_false]
        intro q hq
        simp only [decide_eq_true_eq]
        intro hq1
        exact hin (List.mem_map.mpr ⟨q, hq, hq1⟩)
      rw [b2kvpGo_cons sep msg ki rest acc hany]
      apply ih
      have hmem : ki.key ∈ (acc ++ c10Entries sep [(msg, ki)]).map Prod.fst := by
        rw [List.map_append, List.mem_append]
        exact Or.inr (c10Entries_head_mem sep msg ki)
      rcases h with h | ⟨k, hk, hacc⟩
      · rw [List.map_cons] at h
        rw [List.nodup_cons] at h
        push_neg at h
        by_cases hrep : ki.key ∈ rest.map fun p => p.2.key
        · exact Or.inr ⟨ki.key, hrep, hmem⟩
        · exact Or.inl (h hrep)
      · rw [List.map_cons, List.mem_cons] at hk
        rcases hk with hk | hk
        · exact absurd (hk ▸ hacc) hin
        · exact Or.inr ⟨k, hk, by rw [List.map_append, List.mem_append]; exact Or.inl hacc⟩

/-- When no inserted property name collides, the `bundle2keyValuePair` loop
returns the accumulated object followed by the expected entries. -/
theorem b2kvpGo_ok (sep : Option String) (pairs : List (String × KeyInfo)) :
    ∀ acc : List (String × JSVal),
      ((acc ++ c10Entries sep pairs).map Prod.fst).Nodup →
      b2kvpGo sep pairs acc = .ok (acc ++ c10Entries sep pairs) := by
  induction pairs with
  | nil =>
    intro acc _
    simp [b2kvpGo, c10Entries]
  | cons p rest ih =>
    intro acc h
    obtain ⟨msg, ki⟩ := p
    rw [c10Entries_cons] at h ⊢
    have hnodup := h
    rw [List.map_append, List.nodup_append] at hnodup
    have hin : ki.key ∉ acc.map Prod.fst := by
      intro hmem
      have hdisj := hnodup.2.2
      apply hdisj hmem
      rw [List.map_append, List.mem_append]
      exact Or.inl (c10Entries_head_mem sep msg ki)
    have hany : (acc.any fun q => q.1 = ki.key) = false := by
      rw [List.any_eq_false]
      intro q hq
      simp only [decide_eq_true_eq]
      intro hq1
      exact hin (List.mem_map.mpr ⟨q, hq, hq1⟩)
    rw [b2kvpGo_cons sep msg ki rest acc hany, ← List.append_assoc]
    apply ih
    rw [List.append_assoc]
    exact h

/-- Claim C10 counterexample: on the bundle with the single key
`{key: "a", comment: []}` the claim predicts the object `{a: "m"}` (the
comment list is empty, so no comments entry), but `if (comments)` is truthy
for an empty array, so the code also inserts `"_a.comments": []`. -/
theorem c10_counterexample :
    bundle2keyValuePair ⟨["m"], [.info "a" []]⟩ none
        = .ok [("a", JSVal.str "m"), ("_a.comments", JSVal.arr [])] ∧
    ¬ bundle2keyValuePair ⟨["m"], [.info "a" []]⟩ none = .ok [("a", JSVal.str "m")] := by
  refine ⟨rfl, ?_⟩
  intro h
  rw [show bundle2keyValuePair ⟨["m"], [.info "a" []]⟩ none
      = .ok [("a", JSVal.str "m"), ("_a.comments", JSVal.arr [])] from rfl] at h
  simp at h

/-- Claim C10, amended: over an index-aligned bundle, `bundle2keyValuePair`
throws whenever the resolved key list repeats a key; when the inserted
property names (each resolved key, and additionally `_<key>.comments` for
each `LocalizeInfo` key — even one with an empty comment list) are pairwise
distinct, it returns the object mapping each key to its message with a
comments entry after each `LocalizeInfo` key. -/
theorem c10_amended (b : JavaScriptMessageBundle) (sep : Option String)
    (hlen : b.messages.length = b.keys.length) :
    (¬ (b.keys.map KeyInfo.key).Nodup → ∃ e, bundle2keyValuePair b sep = .error e) ∧
    (((c10Entries sep (b.messages.zip b.keys)).map Prod.fst).Nodup →
      bundle2keyValuePair b sep = .ok (c10Entries sep (b.messages.zip b.keys))) := by
  constructor
  · intro hdup
    apply b2kvpGo_error sep (b.messages.zip b.keys) []
    left
    have hzip : ((b.messages.zip b.keys).map fun p => p.2.key) = b.keys.map KeyInfo.key := by
      have hsnd : (b.messages.zip b.keys).map Prod.snd = b.keys :=
        List.map_snd_zip b.messages b.keys (by omega)
      calc ((b.messages.zip b.keys).map fun p => p.2.key)
          = ((b.messages.zip b.keys).map Prod.snd).map KeyInfo.key := by
            rw [List.map_map]; rfl
        _ = b.keys.map KeyInfo.key := by rw [hsnd]
    rw [hzip]
    exact hdup
  · intro hnodup
    have h := b2kvpGo_ok sep (b.messages.zip b.keys) [] (by simpa using hnodup)
    simpa using h

/-- Witness for C10 (amended) on a two-key bundle whose second key carries
comments. -/
theorem c10_amended_witness :
    (["m1", "m2"] : List String).length
        = [KeyInfo.str "k1", KeyInfo.info "k2" ["c1", "c2"]].length ∧
    ((c10Entries none ((["m1", "m2"] : List String).zip
        [KeyInfo.str "k1", KeyInfo.info "k2" ["c1", "c2"]])).map Prod.fst).Nodup ∧
    bundle2keyValuePair ⟨["m1", "m2"], [.str "k1", .info "k2" ["c1", "c2"]]⟩ none
      = .ok [("k1", JSVal.str "m1"), ("k2", JSVal.str "m2"),
             ("_k2.comments", JSVal.arr ["c1", "c2"])] :=
  ⟨by decide, by decide,
   (c10_amended ⟨["m1", "m2"], [.str "k1", .info "k2" ["c1", "c2"]]⟩ none (by decide)).2
     (by decide)⟩

/-- Taking `getLast?` ignores a cons onto a nonempty list. -/
theorem getLast?_cons_of_ne_nil (a : Line) (l : List Line) (h : l ≠ []) :
    (a :: l).getLast? = l.getLast? := by
  obtain ⟨y, ys, rfl⟩ := List.exists_cons_of_ne_nil h
  exact List.getLast?_cons_cons

/-- A list with a last element is nonempty. -/
theorem ne_nil_of_getLast?_eq_some (l : List Line) (x : Line) (h : l.getLast? = some x) :
    l ≠ [] := by
  intro hnil
  rw [hnil] at h
  simp at h

/-- The line splitter always ends with a final segment: a line with empty
ending and non-null content. -/
theorem scanLines_getLast (cs : List Char) (cur : List Char) :
    ∃ t, (scanLines cs cur).getLast? = some ⟨some t, ""⟩ := by
  induction cs, cur using scanLines.induct with
  | case1 cur => exact ⟨⟨cur.reverse⟩, rfl⟩
  | case2 rest cur ih =>
    obtain ⟨t, ht⟩ := ih
    refine ⟨t, ?_⟩
    rw [scanLines, getLast?_cons_of_ne_nil _ _ (ne_nil_of_getLast?_eq_some _ _ ht)]
    exact ht
  | case3 rest cur h ih =>
    obtain ⟨t, ht⟩ := ih
    refine ⟨t, ?_⟩
    rw [scanLines, getLast?_cons_of_ne_nil _ _ (ne_nil_of_getLast?_eq_some _ _ ht)]
    exact ht
    exact h
  | case4 rest cur ih =>
    obtain ⟨t, ht⟩ := ih
    refine ⟨t, ?_⟩
    rw [scanLines, getLast?_cons_of_ne_nil _ _ (ne_nil_of_getLast?_eq_some _ _ ht)]
    exact ht
  | case5 c rest cur h1 h2 h3 ih =>
    obtain ⟨t, ht⟩ := ih
    refine ⟨t, ?_⟩
    rw [scanLines]
    exact ht
    exact h1
    exact h2
    exact h3

/-- A model built by the constructor from nonempty text has a last line, with
empty ending and non-null content. -/
theorem make_getLast (text : String) (h : text ≠ "") :
    ∃ t, (TextModel.make text).lines.getLast? = some ⟨some t, ""⟩ := by
  have hd : text.data ≠ [] := by
    intro hnil
    apply h
    cases text
    simp only at hnil
    rw [hnil]
  have hemp : text.data.isEmpty = false := by
    cases hcs : text.data with
    | nil => exact absurd hcs hd
    | cons a l => rfl
  simp only [TextModel.make, hemp, Bool.false_eq_true, if_false]
  exact scanLines_getLast text.data []

/-- The overlap test fails against every start position at or beyond one it
already fails against. -/
theorem overlapCond_false_of_le (e : Pos) (p q : Patch)
    (h1 : overlapCond e p.span.start = false) (h2 : startLe p q) :
    overlapCond e q.span.start = false := by
  simp only [overlapCond, Bool.or_eq_false_iff, Bool.and_eq_false_iff,
    decide_eq_false_iff_not, not_lt, not_le] at h1 ⊢
  unfold startLe at h2
  omega

/-- Over a sorted, consecutively non-overlapping patch list, the code's
overlap scan (first patch against each later one) finds nothing. -/
theorem hasOverlap_eq_false (l : List Patch) (hs : List.Sorted startLe l)
    (hn : noConsecOverlap l = true) : hasOverlap l = false := by
  cases l with
  | nil => rfl
  | cons p0 l1 =>
    cases l1 with
    | nil => rfl
    | cons p1 rest =>
      rw [hasOverlap, List.any_eq_false]
      intro x hx
      have h01 : overlapCond p0.span.stop p1.span.start = false := by
        rw [noConsecOverlap] at hn
        simp only [Bool.and_eq_true, Bool.not_eq_true'] at hn
        exact hn.1
      rw [List.mem_cons] at hx
      rcases hx with rfl | hx
      · simp [h01]
      · have hs1 : List.Sorted startLe (p1 :: rest) := (List.sorted_cons.mp hs).2
        have hle : startLe p1 x := (List.sorted_cons.mp hs1).1 x hx
        simp [overlapCond_false_of_le p0.span.stop p1 x h01 hle]

/-- The mutation phase can only succeed or crash; it never raises the two
checked errors. -/
theorem applyBody_ne (m : TextModel) (s : List Patch) :
    applyBody m s ≠ .error .overlap ∧ applyBody m s ≠ .error .outOfBounds := by
  rw [applyBody]
  cases applyAll m.lines s.reverse with
  | some ls => exact ⟨by simp, by simp⟩
  | none => exact ⟨by simp, by simp⟩

/-- Claim C5 counterexample: on the one-line document `"abc"`, the single
patch ending at position `(1, 0)` ends past the last line of the document, so
the claim demands the out-of-bounds error; the code's check
(`end.line > lines.length`, not `>= lines.length`... and the `=` case only
compares characters) lets it through, and the splice then crashes with a
`TypeError` instead of raising the out-of-bounds error. -/
theorem c5_counterexample :
    TextModel.apply (TextModel.make "abc") [⟨⟨⟨0, 1⟩, ⟨1, 0⟩⟩, "X"⟩] = .error .typeError ∧
    ApplyError.typeError ≠ ApplyError.outOfBounds ∧
    noConsecOverlap (sortPatches [⟨⟨⟨0, 1⟩, ⟨1, 0⟩⟩, "X"⟩]) = true ∧
    (1 : Nat) > (TextModel.make "abc").lines.length - 1 :=
  ⟨rfl, by decide, rfl, by decide⟩

/-- Claim C5, amended: for a nonempty, consecutively non-overlapping patch
set over a model built from nonempty text, `apply` raises the out-of-bounds
error iff the last sorted patch's end satisfies the code's bound check —
`end.line > lineCount`, or `end.line = lineCount` with `end.character`
greater than the last line's content length — and it never raises the
overlap error (the error checks precede every mutation). -/
theorem c5_amended (text : String) (ps : List Patch)
    (hps : ps ≠ []) (htext : text ≠ "")
    (hno : noConsecOverlap (sortPatches ps) = true) :
    ((TextModel.make text).apply ps = .error .outOfBounds ↔
      ∃ lp, (sortPatches ps).getLast? = some lp ∧
        (lp.span.stop.line > (TextModel.make text).lines.length ∨
          (lp.span.stop.line = (TextModel.make text).lines.length ∧
            lp.span.stop.character > lastContentLen (TextModel.make text)))) ∧
    (TextModel.make text).apply ps ≠ .error .overlap := by
  obtain ⟨p, ps', rfl⟩ := List.exists_cons_of_ne_nil hps
  have hsorted : List.Sorted startLe (sortPatches (p :: ps')) :=
    List.sorted_insertionSort startLe (p :: ps')
  have hov : hasOverlap (sortPatches (p :: ps')) = false :=
    hasOverlap_eq_false _ hsorted hno
  have hsne : sortPatches (p :: ps') ≠ [] := by
    intro hnil
    have hlen := List.length_insertionSort startLe (p :: ps')
    rw [sortPatches] at hnil
    rw [hnil] at hlen
    simp at hlen
  obtain ⟨lp, hlast⟩ := Option.isSome_iff_exists.mp (List.getLast?_isSome.mpr hsne)
  obtain ⟨t, hline⟩ := make_getLast text htext
  have hclen : lastContentLen (TextModel.make text) = t.length := by
    rw [lastContentLen, hline]
    rfl
  simp only [TextModel.apply, hov, Bool.false_eq_true, if_false, hlast]
  by_cases h1 : lp.span.stop.line > (TextModel.make text).lines.length
  · rw [if_pos h1]
    exact ⟨⟨fun _ => ⟨lp, rfl, Or.inl h1⟩, fun _ => rfl⟩, by simp⟩
  · rw [if_neg h1]
    by_cases h2 : lp.span.stop.line = (TextModel.make text).lines.length
    · rw [if_pos h2]
      simp only [hline]
      by_cases h3 : lp.span.stop.character > t.length
      · rw [if_pos h3]
        exact ⟨⟨fun _ => ⟨lp, rfl, Or.inr ⟨h2, by rw [hclen]; exact h3⟩⟩, fun _ => rfl⟩,
          by simp⟩
      · rw [if_neg h3]
        refine ⟨⟨fun hc => absurd hc (applyBody_ne _ _).2, ?_⟩, (applyBody_ne _ _).1⟩
        rintro ⟨lp', hlp', hcond⟩
        injection hlp' with he
        subst he
        rcases hcond with hc | ⟨_, hc⟩
        · omega
        · rw [hclen] at hc
          omega
    · rw [if_neg h2]
      refine ⟨⟨fun hc => absurd hc (applyBody_ne _ _).2, ?_⟩, (applyBody_ne _ _).1⟩
      rintro ⟨lp', hlp', hcond⟩
      injection hlp' with he
      subst he
      rcases hcond with hc | ⟨hc, _⟩
      · omega
      · omega

/-- Witness for C5 (amended) on a one-patch, in-bounds input. -/
theorem c5_amended_witness :
    (([⟨⟨⟨0, 0⟩, ⟨0, 1⟩⟩, "Z"⟩] : List Patch) ≠ []) ∧
    ("ab" : String) ≠ "" ∧
    noConsecOverlap (sortPatches [⟨⟨⟨0, 0⟩, ⟨0, 1⟩⟩, "Z"⟩]) = true ∧
    ((((TextModel.make "ab").apply [⟨⟨⟨0, 0⟩, ⟨0, 1⟩⟩, "Z"⟩] = .error .outOfBounds ↔
        ∃ lp, (sortPatches [⟨⟨⟨0, 0⟩, ⟨0, 1⟩⟩, "Z"⟩]).getLast? = some lp ∧
          (lp.span.stop.line > (TextModel.make "ab").lines.length ∨
            (lp.span.stop.line = (TextModel.make "ab").lines.length ∧
              lp.span.stop.character > lastContentLen (TextModel.make "ab")))) ∧
      (TextModel.make "ab").apply [⟨⟨⟨0, 0⟩, ⟨0, 1⟩⟩, "Z"⟩] ≠ .error .overlap)) :=
  ⟨by decide, by decide, by decide,
   c5_amended "ab" [⟨⟨⟨0, 0⟩, ⟨0, 1⟩⟩, "Z"⟩] (by decide) (by decide) (by decide)⟩


